import Mathlib

/-!
Verification development for the `videoscriber` repository.

The repository is a Go program with two packages under verification:
`internal/pkg/subtitles` (the per-upload pipeline orchestrator) and
`internal/app/web` (the HTTP handlers over the subtitle output directory).

Shallow embedding conventions:
* Go strings and file contents are modelled as `List Char` (`Str`, `Data`).
* The filesystem is a flat association list from full paths to contents
  (`FS`).  Directories are implicit: a file is "under" a directory when the
  directory name followed by `/` is a prefix of its path.  The output and
  temp directories are created at program startup (`main`), so the walk
  error branch for a missing root directory never fires and is not modelled.
* External collaborators (the audio extractor subprocess and the Whisper
  transcription client) are oracle functions carried in the `Subtitler`
  structure, together with failure-injection oracles for the fallible
  OS calls the pipeline makes (`os.CreateTemp`, `io.Copy`, file reads,
  `os.Create`).
* Goroutines that the orchestrator fans out are modelled as sequential
  composition in input order; the claims under study concern error
  aggregation and the final filesystem, not interleavings.
-/

/-- Go strings, modelled as lists of characters. -/
abbrev Str := List Char

/-- File contents. -/
abbrev Data := List Char

/-- A flat filesystem: an association list from full paths to contents. -/
abbrev FS := List (Str × Data)

/-- The paths of all files in the filesystem. -/
def keys (fs : FS) : List Str := fs.map Prod.fst

/-- Look up the contents stored at a path (first match). -/
def lookupFs (fs : FS) (p : Str) : Option Data :=
  match fs with
  | [] => none
  | kv :: rest => if kv.1 = p then some kv.2 else lookupFs rest p

/-- Remove every entry stored at a path; a no-op when the path is absent.
Models `os.Remove` as used by the pipeline, whose failure (absent file) is
logged and swallowed. -/
def removeFs (fs : FS) (p : Str) : FS :=
  fs.filter (fun kv => decide (kv.1 ≠ p))

/-- Create or overwrite the file at a path.  Models `os.Create`/write. -/
def writeFs (fs : FS) (p : Str) (d : Data) : FS :=
  (p, d) :: removeFs fs p

/-! ### Go path and string functions used by the program

`path.Ext`, `strings.Replace(s, old, new, 1)`, `path.Clean`, `path.Join`
and `filepath.Base`, translated from the Go standard library sources. -/

/-- Helper for `pathExt`: scan the reversed path; collect characters (in
forward order in `acc`) until the first `.`; stop with empty result at a
`/` or at the start. -/
def pathExtGo : List Char → List Char → Str
  | [], _ => []
  | c :: rest, acc =>
    if c = '/' then []
    else if c = '.' then c :: acc
    else pathExtGo rest (c :: acc)

/-- Models `path.Ext`: the suffix beginning at the final dot in the final
slash-separated element; empty when there is no dot. -/
def pathExt (p : Str) : Str := pathExtGo p.reverse []

/-- Models `strings.Replace(s, old, new, 1)`: replace the first occurrence of
`old` by `new`; when `old` is empty, insert `new` at the start. -/
def replaceFirst (s old new : Str) : Str :=
  if old = [] then new ++ s else goRep s
where
  goRep : Str → Str
    | [] => []
    | c :: rest =>
      if old.isPrefixOf (c :: rest) then new ++ (c :: rest).drop old.length
      else c :: goRep rest

/-- One step of `path.Clean`'s `..` backtracking: `out.w--` followed by
`for out.w > dotdot && out.index(out.w) != '/' { out.w-- }`, acting on the
output buffer kept in reverse. -/
def cleanBack : List Char → Nat → List Char
  | [], _ => []
  | c :: rest, dd => if rest.length > dd ∧ c ≠ '/' then cleanBack rest dd else rest

/-- The main loop of `path.Clean`: the unread input, the output buffer in
reverse (`outr`), and the `dotdot` marker `dd`.  The first argument is a
structural bound on the number of loop iterations, instantiated with the
input length; each iteration consumes at least one input character, so the
bound is never reached before the input is exhausted. -/
def cleanGo (rooted : Bool) : Nat → List Char → List Char → Nat → List Char
  | 0, _, outr, _ => outr
  | _ + 1, [], outr, _ => outr
  | n + 1, c :: r, outr, dd =>
    if c = '/' then
      cleanGo rooted n r outr dd
    else if c = '.' ∧ (r = [] ∨ r.head? = some '/') then
      cleanGo rooted n r outr dd
    else if c = '.' ∧ r.head? = some '.' ∧ (r.tail = [] ∨ r.tail.head? = some '/') then
      if outr.length > dd then cleanGo rooted n r.tail (cleanBack outr dd) dd
      else if rooted then cleanGo rooted n r.tail outr dd
      else
        let outr2 := if outr.length > 0 then '.' :: '.' :: '/' :: outr else ['.', '.']
        cleanGo rooted n r.tail outr2 outr2.length
    else
      let seg := c :: r.takeWhile (fun x => decide (x ≠ '/'))
      let rest := r.dropWhile (fun x => decide (x ≠ '/'))
      let outr2 :=
        if (rooted ∧ outr.length ≠ 1) ∨ (¬ rooted ∧ outr.length ≠ 0) then
          seg.reverse ++ '/' :: outr
        else seg.reverse ++ outr
      cleanGo rooted n rest outr2 dd

/-- Models `path.Clean`. -/
def pathClean (p : Str) : Str :=
  if p = [] then ['.']
  else
    let rooted := p.head? = some '/'
    let outr0 : List Char := if rooted then ['/'] else []
    let dd0 : Nat := if rooted then 1 else 0
    let res := cleanGo rooted p.length p outr0 dd0
    if res = [] then ['.'] else res.reverse

/-- Models `path.Join` for two elements: concatenate the non-empty elements with
`/` and `Clean` the result; the empty string when both are empty. -/
def pathJoin (a b : Str) : Str :=
  if a = [] ∧ b = [] then []
  else if a = [] then pathClean b
  else pathClean (a ++ '/' :: b)

/-- Models `filepath.Base`: the last element of the path after stripping trailing
slashes; `.` for the empty path; `/` for an all-slash path. -/
def baseName (p : Str) : Str :=
  if p = [] then ['.']
  else
    let q := p.reverse.dropWhile (fun x => decide (x = '/'))
    if q = [] then ['/']
    else (q.takeWhile (fun x => decide (x ≠ '/'))).reverse

/-- The literal `".srt"`. -/
def srtExt : Str := ".srt".data

/-- Function `subtitlePath` from `subtitles.go`: join the output directory with the
name after `strings.Replace(name, path.Ext(name), ".srt", 1)`. -/
def subtitlePath (dir name : Str) : Str :=
  pathJoin dir (replaceFirst name (pathExt name) srtExt)

/-- The output path as the spec's words describe it: join the output
directory with the base name of the original filename, its extension
replaced by `".srt"`. -/
def subtitlePathSpec (dir name : Str) : Str :=
  let b := baseName name
  pathJoin dir (b.take (b.length - (pathExt b).length) ++ srtExt)

/-! ### The subtitle pipeline (`internal/pkg/subtitles`) -/

/-- Language codes of the external `whisperclient` package.  Modelled from
the spec: the Transcription Client takes a language code; the program only
ever passes the package's Portuguese constant. -/
inductive WLang where
  | portuguese
  | english
  deriving DecidableEq, Repr

/-- Output formats of the external `whisperclient` package.  Modelled from
the spec: the client takes a desired output format; the program passes the
subtitle-rip (SRT) constant. -/
inductive WFormat where
  | srt
  | text
  deriving DecidableEq, Repr

/-- Record `whisperclient.TranscribeAudioInput`: the argument record of a
transcription call. -/
structure TranscribeAudioInput where
  name : Str
  language : WLang
  format : WFormat
  data : Data
  deriving DecidableEq, Repr

/-- One wrapped pipeline error per fallible stage, mirroring the
`fmt.Errorf` contexts in `processFile` and its helpers. -/
inductive PErr where
  | createVideo
  | extractA
  | readAudio
  | transcribeE
  | writeSub
  deriving DecidableEq, Repr

/-- Structure `Input` from `subtitles.go`: one upload job (original filename, the
video bytes, per-job language).  The byte stream is modelled as the fully
read contents. -/
structure Input where
  fileName : Str
  data : Data
  language : Str
  deriving DecidableEq, Repr

/-- The `Subtitler` configuration plus the environment it runs against:
the two collaborator oracles (`audiostripper`, `whisperclient`) and
failure-injection oracles for the fallible OS calls (`os.CreateTemp`,
`io.Copy` of the upload stream, reading the audio file, `os.Create` of the
subtitle file).  A `true` from a failure oracle makes the corresponding
call fail. -/
structure Subtitler where
  sampleRate : Str
  outputDir : Str
  tmpDir : Str
  createTempFail : Str → Bool
  copyFail : Str → Bool
  readFail : Str → Bool
  createFail : Str → Bool
  extract : Str → Str → Except Str (Str × Data)
  transcribe : TranscribeAudioInput → Except Str Data

/-- Total length of all path names in the filesystem; any fresh name longer
than this is absent. -/
def sumKeyLens (fs : FS) : Nat :=
  fs.foldr (fun kv acc => kv.1.length + acc) 0

/-- Models the fresh path chosen by `os.CreateTemp(dir, name)`: the
directory, a separator, the caller's name hint, and a uniquifying suffix.
The suffix is made long enough that the path differs from every existing
path, reflecting the OS guarantee that the created name is fresh. -/
def freshTempName (fs : FS) (dir name : Str) : Str :=
  dir ++ '/' :: name ++ List.replicate (sumKeyLens fs + 1) '0'

/-- Result of one pipeline step that may create files: the filesystem, the
step outcome, and (ghost, for stating the cleanup claims) the temp paths
the step created. -/
structure StepResult where
  fs : FS
  out : Except PErr Str
  created : List Str

/-- Function `createVideoFile`: create a temporary file in the temp directory from
the name hint (`os.CreateTemp` rejects hints containing a separator and
creates an empty file otherwise), then copy the upload stream into it.
When the copy fails the already-created temp file is left in place, as in
the source, which returns without removing it. -/
def createVideoFile (s : Subtitler) (fs : FS) (name : Str) (data : Data) : StepResult :=
  if '/' ∈ name ∨ s.createTempFail name then ⟨fs, .error .createVideo, []⟩
  else
    let p := freshTempName fs s.tmpDir name
    let fs1 := writeFs fs p []
    if s.copyFail name then ⟨fs1, .error .createVideo, [p]⟩
    else ⟨writeFs fs1 p data, .ok p, [p]⟩

/-- Function `extractAudio`: invoke the Audio Extractor collaborator with the video
path and sample rate.  Modelled from the spec: on success the collaborator
has produced the decoded audio file at the returned path (spec section 6),
so the model writes it into the filesystem. -/
def extractAudio (s : Subtitler) (fs : FS) (filepath sampleRate : Str) :
    FS × Except PErr Str :=
  match s.extract filepath sampleRate with
  | .error _ => (fs, .error .extractA)
  | .ok (audioPath, audioData) => (writeFs fs audioPath audioData, .ok audioPath)

/-- Function `readFile`: open and fully read a file; fails when the path is absent
or on an injected read error. -/
def readFileFs (s : Subtitler) (fs : FS) (p : Str) : Except PErr Data :=
  match lookupFs fs p with
  | none => .error .readAudio
  | some d => if s.readFail p then .error .readAudio else .ok d

/-- Function `writeFile`: models `os.Create` then write; an injected create failure leaves
the filesystem unchanged. -/
def writeFileFs (s : Subtitler) (fs : FS) (p : Str) (d : Data) :
    FS × Except PErr Unit :=
  if s.createFail p then (fs, .error .writeSub) else (writeFs fs p d, .ok ())

/-- Function `requestSubtitle`: call the Whisper client with the audio bytes, the
original filename, the hardcoded Portuguese language and the SRT format.
The `sampleRate` parameter is accepted and unused, as in the source.
Also returns (ghost) the call record, for stating what was passed. -/
def requestSubtitle (s : Subtitler) (audioData : Data) (fileName sampleRate : Str) :
    Except PErr Data × List TranscribeAudioInput :=
  let inp : TranscribeAudioInput :=
    ⟨fileName, WLang.portuguese, WFormat.srt, audioData⟩
  match s.transcribe inp with
  | .error _ => (.error .transcribeE, [inp])
  | .ok d => (.ok d, [inp])

/-- Result of one pipeline run: the filesystem, the error sent to the
error channel (if any), and two ghost observations — the temp paths
created during the run and the transcription calls made. -/
structure PipelineResult where
  fs : FS
  err : Option PErr
  created : List Str
  calls : List TranscribeAudioInput

/-- Function `processFile`: one pipeline run over one upload job, translated
branch-for-branch from the source.  The deferred `removeFile` calls run in
LIFO order (audio file first, then video file) on every exit path after
the corresponding file's creation. -/
def processFile (s : Subtitler) (fs : FS) (inp : Input) : PipelineResult :=
  let r1 := createVideoFile s fs inp.fileName inp.data
  match r1.out with
  | .error e => ⟨r1.fs, some e, r1.created, []⟩
  | .ok videoPath =>
    match extractAudio s r1.fs videoPath s.sampleRate with
    | (fs2, .error e) => ⟨removeFs fs2 videoPath, some e, r1.created, []⟩
    | (fs2, .ok audioPath) =>
      let created2 := r1.created ++ [audioPath]
      match readFileFs s fs2 audioPath with
      | .error e =>
        ⟨removeFs (removeFs fs2 audioPath) videoPath, some e, created2, []⟩
      | .ok audioData =>
        match requestSubtitle s audioData inp.fileName s.sampleRate with
        | (.error e, calls) =>
          ⟨removeFs (removeFs fs2 audioPath) videoPath, some e, created2, calls⟩
        | (.ok subData, calls) =>
          let subPath := subtitlePath s.outputDir inp.fileName
          match writeFileFs s fs2 subPath subData with
          | (fs3, .error e) =>
            ⟨removeFs (removeFs fs3 audioPath) videoPath, some e, created2, calls⟩
          | (fs3, .ok _) =>
            ⟨removeFs (removeFs fs3 audioPath) videoPath, none, created2, calls⟩

/-- Run the per-job pipelines.  The goroutine fan-out is modelled as
sequential composition in job order; returns the final filesystem, the
error-channel contents in completion order, and (ghost) each job's own
outcome. -/
def runPipelines (s : Subtitler) : FS → List Input → FS × List PErr × List (Option PErr)
  | fs, [] => (fs, [], [])
  | fs, inp :: rest =>
    let r := processFile s fs inp
    let (fs2, errs, perJob) := runPipelines s r.fs rest
    (fs2, r.err.toList ++ errs, r.err :: perJob)

/-- Result of `GenerateFromAudioData`: the filesystem, the aggregated
error, and (ghost) the per-job outcomes. -/
structure GenResult where
  fs : FS
  err : Option PErr
  perJob : List (Option PErr)

/-- Method `GenerateFromAudioData`: run every pipeline to completion, drain the
error channel keeping the last error seen, and return it (wrapped) when
any pipeline failed. -/
def generateFromAudioData (s : Subtitler) (fs : FS) (inputs : List Input) : GenResult :=
  let (fs2, errs, perJob) := runPipelines s fs inputs
  ⟨fs2, errs.getLast?, perJob⟩

/-! ### The HTTP handlers (`internal/app/web`) -/

/-- The `subtitlesDir` constant of the web package. -/
def subtitlesDirW : Str := "subtitles".data

/-- The `maxFileSize` constant of the web package: `1 << 30`. -/
def maxFileSize : Nat := 2 ^ 30

/-- Whether a path lies (anywhere) under a directory: the directory name
followed by the separator is a prefix of the path. -/
def isUnder (dir p : Str) : Bool := decide ((dir ++ ['/']) <+: p)

/-- The files visited by `filepath.WalkDir` rooted at `dir`, in the
deterministic order the walk produces: `os.ReadDir` sorts each directory's
entries by name, so the visit order is a sorted traversal of the files
under `dir`.  Directory entries themselves are skipped or unmatched in
every handler under study and are not synthesised by the flat-filesystem
model. -/
def walkFiles (fs : FS) (dir : Str) : List Str :=
  List.insertionSort (· ≤ ·) ((keys fs).filter (fun p => isUnder dir p))

/-- Handler `listSubtitles`: walk the subtitles directory, skip directories, keep
entries whose extension is `.srt`, and collect their base names.
(`filepath.Ext(file.Name())` equals `pathExt` of the full path, since
`Ext` never looks past the last separator.) -/
def listSubtitles (fs : FS) : List Str :=
  ((walkFiles fs subtitlesDirW).filter (fun p => decide (pathExt p = srtExt))).map baseName

/-- The List endpoint as the spec's words describe it: a non-recursive
scan returning the base names of the entries located directly in the
output directory whose extension is `.srt`, and nothing from
subdirectories. -/
def listSubtitlesSpec (fs : FS) : List Str :=
  (((keys fs).filter (fun p =>
      isUnder subtitlesDirW p
        && decide ('/' ∉ p.drop (subtitlesDirW.length + 1))
        && decide (pathExt p = srtExt))).map baseName).insertionSort (· ≤ ·)

/-- An HTTP response as the handlers under study observe it: the status
code, the two headers they may set, and the served body. -/
structure HttpResp where
  status : Nat
  contentType : Option Str
  disposition : Option Str
  body : Option Data
  deriving DecidableEq, Repr

/-- The response when a handler writes nothing: Go's `ResponseWriter`
replies 200 with an empty body. -/
def emptyOk : HttpResp := ⟨200, none, none, none⟩

/-- Handler `subtitleFile` (fetch-by-name): walk the subtitles directory and, for
every entry whose name equals the `name` parameter, set the subtitle
content type and attachment disposition and serve the file. -/
def subtitleFileH (fs : FS) (name : Str) : HttpResp :=
  (walkFiles fs subtitlesDirW).foldl
    (fun resp p =>
      if baseName p = name then
        { status := 200
          contentType := some "application/x-subrip".data
          disposition := some ("attachment; filename=".data ++ name)
          body := lookupFs fs p }
      else resp)
    emptyOk

/-- Handler `deleteSubtitle`: walk the subtitles directory and remove every entry
whose name equals the `name` parameter; reply with an empty 200. -/
def deleteSubtitleH (fs : FS) (name : Str) : FS × HttpResp :=
  ((walkFiles fs subtitlesDirW).foldl
      (fun acc p => if baseName p = name then removeFs acc p else acc) fs,
    emptyOk)

/-- The zip archive response: the entries in archive order (entry name,
entry contents), with the content type and disposition headers.  The
`archive/zip` container is modelled as its entry sequence. -/
structure ZipResp where
  entries : List (Str × Data)
  contentType : Str
  disposition : Str
  deriving DecidableEq, Repr

/-- Handler `subtitlesZip`: walk the subtitles directory, skip directories, and
copy every `.srt` file into a zip entry named by its base name; serve as
`legendas.zip`. -/
def subtitlesZipH (fs : FS) : ZipResp :=
  { entries :=
      ((walkFiles fs subtitlesDirW).filter (fun p => decide (pathExt p = srtExt))).map
        (fun p => (baseName p, (lookupFs fs p).getD []))
    contentType := "application/zip".data
    disposition := "attachment; filename=legendas.zip".data }

/-- One part of a multipart form under some field name: the uploaded
file's name and contents. -/
structure FilePart where
  fileName : Str
  content : Data
  deriving DecidableEq, Repr

/-- An upload request: the parsed multipart form (field name to parts) and
whether the body is malformed (`ParseMultipartForm` fails).  Modelling
note: `http.Request.ParseMultipartForm(maxMemory)` parses well-formed
bodies of any size — `maxMemory` only bounds the portion of the file parts
kept in memory, with the remainder spilled to disk temp files — so body
size does not appear in the failure condition. -/
structure UploadReq where
  form : List (Str × List FilePart)
  parseFail : Bool

/-- Total size in bytes of the file parts of a request body. -/
def bodySize (req : UploadReq) : Nat :=
  (req.form.map (fun f => (f.2.map (fun p => p.content.length)).sum)).sum

/-- Look up a field of the parsed form (`r.MultipartForm.File[...]`). -/
def lookupForm (form : List (Str × List FilePart)) (field : Str) : Option (List FilePart) :=
  match form with
  | [] => none
  | fv :: rest => if fv.1 = field then some fv.2 else lookupForm rest field

/-- Result of the upload handler: the filesystem, the response status, and
(ghost) whether the Orchestrator was invoked. -/
structure UploadResult where
  fs : FS
  status : Nat
  calledOrch : Bool

/-- Handler `createSubtitles` (the upload handler): parse the multipart form with
`maxFileSize` as the memory bound, reject with 400 when parsing fails or
when the `"file"` field has no parts, otherwise build one `Input` per part
(language fixed to `"pt"`) and invoke the Orchestrator; 500 on pipeline
failure, JSON message with 200 otherwise. -/
def createSubtitlesH (s : Subtitler) (fs : FS) (req : UploadReq) : UploadResult :=
  if req.parseFail then ⟨fs, 400, false⟩
  else
    match lookupForm req.form "file".data with
    | none => ⟨fs, 400, false⟩
    | some parts =>
      if parts = [] then ⟨fs, 400, false⟩
      else
        let inputs := parts.map (fun p => Input.mk p.fileName p.content "pt".data)
        let r := generateFromAudioData s fs inputs
        match r.err with
        | some _ => ⟨r.fs, 500, true⟩
        | none => ⟨r.fs, 200, true⟩

example : pathClean "a/b/../c".data = "a/c".data := by decide
example : pathClean "".data = ".".data := by decide
example : pathClean "/../a".data = "/a".data := by decide
example : pathClean "../a".data = "../a".data := by decide
example : pathClean "./a//b".data = "a/b".data := by decide
example : pathClean "a/../../b".data = "../b".data := by decide
example : pathClean "/a/..".data = "/".data := by decide
example : pathClean "a/..".data = ".".data := by decide
example : pathExt "a.mp4".data = ".mp4".data := by decide
example : pathExt "a.mp4/b".data = "".data := by decide
example : pathJoin "out".data "a.srt".data = "out/a.srt".data := by decide
example : subtitlePath "out".data "a.mp4".data = "out/a.srt".data := by decide
example : subtitlePath "out".data "noext".data = "out/.srtnoext".data := by decide
example : subtitlePath "out".data "a.mp4.mp4".data = "out/a.srt.mp4".data := by decide
example : subtitlePathSpec "out".data "a.mp4.mp4".data = "out/a.mp4.srt".data := by decide
example : baseName "a/b.mp4".data = "b.mp4".data := by decide

/-! ### Filesystem lemmas -/

theorem mem_keys_removeFs {fs : FS} {k p : Str} (hmem : k ∈ keys fs) (hne : k ≠ p) :
    k ∈ keys (removeFs fs p) := by
  simp only [keys, removeFs, List.mem_map] at hmem ⊢
  obtain ⟨kv, hkv, rfl⟩ := hmem
  exact ⟨kv, List.mem_filter.2 ⟨hkv, by simpa using hne⟩, rfl⟩

theorem mem_keys_writeFs {fs : FS} {k : Str} (p : Str) (d : Data) (hmem : k ∈ keys fs) :
    k ∈ keys (writeFs fs p d) := by
  by_cases hkp : k = p
  · subst hkp; simp [writeFs, keys]
  · simp only [writeFs, keys, List.map_cons, List.mem_cons]
    exact Or.inr (mem_keys_removeFs hmem hkp)

theorem mem_keys_writeFs_self (fs : FS) (p : Str) (d : Data) :
    p ∈ keys (writeFs fs p d) := by
  simp [writeFs, keys]

theorem lookupFs_writeFs_self (fs : FS) (p : Str) (d : Data) :
    lookupFs (writeFs fs p d) p = some d := by
  simp [writeFs, lookupFs]

theorem sumKeyLens_bound {fs : FS} {kv : Str × Data} (h : kv ∈ fs) :
    kv.1.length ≤ sumKeyLens fs := by
  induction fs with
  | nil => cases h
  | cons hd tl ih =>
    rcases List.mem_cons.1 h with h1 | h1
    · subst h1
      simp [sumKeyLens]
    · have := ih h1
      simp [sumKeyLens] at this ⊢
      omega

theorem freshTempName_not_mem (fs : FS) (dir name : Str) :
    freshTempName fs dir name ∉ keys fs := by
  intro hmem
  simp only [keys, List.mem_map] at hmem
  obtain ⟨kv, hkv, heq⟩ := hmem
  have hle := sumKeyLens_bound hkv
  have hlen : (freshTempName fs dir name).length =
      dir.length + 1 + name.length + (sumKeyLens fs + 1) := by
    simp [freshTempName]
    omega
  rw [heq] at hle
  omega

theorem freshTempName_under (fs : FS) (dir name : Str) :
    (dir ++ ['/']) <+: freshTempName fs dir name := by
  refine ⟨name ++ List.replicate (sumKeyLens fs + 1) '0', ?_⟩
  simp [freshTempName]

/-! ### Pipeline branch lemmas -/

theorem processFile_preserves (s : Subtitler) (fs : FS) (inp : Input) (k : Str)
    (hext : ∀ vp ap d, s.extract vp s.sampleRate = Except.ok (ap, d) →
      (s.tmpDir ++ ['/']) <+: ap)
    (hk : ¬ (s.tmpDir ++ ['/']) <+: k) (hmem : k ∈ keys fs) :
    k ∈ keys (processFile s fs inp).fs := by
  have hkv : k ≠ freshTempName fs s.tmpDir inp.fileName := by
    intro h
    exact hk (h ▸ freshTempName_under fs s.tmpDir inp.fileName)
  by_cases hct : ('/' ∈ inp.fileName ∨ s.createTempFail inp.fileName = true)
  · simpa [processFile, createVideoFile, hct] using hmem
  · by_cases hcp : s.copyFail inp.fileName = true
    · simp only [processFile, createVideoFile, if_neg hct, if_pos hcp]
      exact mem_keys_writeFs _ _ hmem
    · rcases hex : s.extract (freshTempName fs s.tmpDir inp.fileName) s.sampleRate with
        e | ⟨ap, ad⟩
      · simp only [processFile, createVideoFile, extractAudio, if_neg hct, if_neg hcp, hex]
        exact mem_keys_removeFs (mem_keys_writeFs _ _ (mem_keys_writeFs _ _ hmem)) hkv
      · have hka : k ≠ ap := by
          intro h
          exact hk (h ▸ hext _ _ _ hex)
        by_cases hrf : s.readFail ap = true
        · simp only [processFile, createVideoFile, extractAudio, readFileFs, if_neg hct,
            if_neg hcp, hex, lookupFs_writeFs_self, if_pos hrf]
          exact mem_keys_removeFs
            (mem_keys_removeFs
              (mem_keys_writeFs _ _ (mem_keys_writeFs _ _ (mem_keys_writeFs _ _ hmem))) hka) hkv
        · rcases htr : s.transcribe
              ⟨inp.fileName, WLang.portuguese, WFormat.srt, ad⟩ with e | subData
          · simp only [processFile, createVideoFile, extractAudio, readFileFs, requestSubtitle,
              if_neg hct, if_neg hcp, hex, lookupFs_writeFs_self, if_neg hrf, htr]
            exact mem_keys_removeFs
              (mem_keys_removeFs
                (mem_keys_writeFs _ _ (mem_keys_writeFs _ _ (mem_keys_writeFs _ _ hmem))) hka) hkv
          · by_cases hcf : s.createFail (subtitlePath s.outputDir inp.fileName) = true
            · simp only [processFile, createVideoFile, extractAudio, readFileFs, requestSubtitle,
                writeFileFs, if_neg hct, if_neg hcp, hex, lookupFs_writeFs_self, if_neg hrf, htr,
                if_pos hcf]
              exact mem_keys_removeFs
                (mem_keys_removeFs
                  (mem_keys_writeFs _ _ (mem_keys_writeFs _ _ (mem_keys_writeFs _ _ hmem))) hka) hkv
            · simp only [processFile, createVideoFile, extractAudio, readFileFs, requestSubtitle,
                writeFileFs, if_neg hct, if_neg hcp, hex, lookupFs_writeFs_self, if_neg hrf, htr,
                if_neg hcf]
              exact mem_keys_removeFs
                (mem_keys_removeFs
                  (mem_keys_writeFs _ _
                    (mem_keys_writeFs _ _ (mem_keys_writeFs _ _ (mem_keys_writeFs _ _ hmem))))
                  hka) hkv

theorem processFile_success_writes (s : Subtitler) (fs : FS) (inp : Input)
    (hext : ∀ vp ap d, s.extract vp s.sampleRate = Except.ok (ap, d) →
      (s.tmpDir ++ ['/']) <+: ap)
    (hsub : ¬ (s.tmpDir ++ ['/']) <+: subtitlePath s.outputDir inp.fileName)
    (hok : (processFile s fs inp).err = none) :
    subtitlePath s.outputDir inp.fileName ∈ keys (processFile s fs inp).fs := by
  have hkv : subtitlePath s.outputDir inp.fileName ≠ freshTempName fs s.tmpDir inp.fileName := by
    intro h
    exact hsub (h ▸ freshTempName_under fs s.tmpDir inp.fileName)
  by_cases hct : ('/' ∈ inp.fileName ∨ s.createTempFail inp.fileName = true)
  · simp [processFile, createVideoFile, hct] at hok
  · by_cases hcp : s.copyFail inp.fileName = true
    · simp [processFile, createVideoFile, if_neg hct, hcp] at hok
    · rcases hex : s.extract (freshTempName fs s.tmpDir inp.fileName) s.sampleRate with
        e | ⟨ap, ad⟩
      · simp [processFile, createVideoFile, extractAudio, if_neg hct, if_neg hcp, hex] at hok
      · have hka : subtitlePath s.outputDir inp.fileName ≠ ap := by
          intro h
          exact hsub (h ▸ hext _ _ _ hex)
        by_cases hrf : s.readFail ap = true
        · simp [processFile, createVideoFile, extractAudio, readFileFs, if_neg hct,
            if_neg hcp, hex, lookupFs_writeFs_self, hrf] at hok
        · rcases htr : s.transcribe
              ⟨inp.fileName, WLang.portuguese, WFormat.srt, ad⟩ with e | subData
          · simp [processFile, createVideoFile, extractAudio, readFileFs, requestSubtitle,
              if_neg hct, if_neg hcp, hex, lookupFs_writeFs_self, if_neg hrf, htr] at hok
          · by_cases hcf : s.createFail (subtitlePath s.outputDir inp.fileName) = true
            · simp [processFile, createVideoFile, extractAudio, readFileFs, requestSubtitle,
                writeFileFs, if_neg hct, if_neg hcp, hex, lookupFs_writeFs_self, if_neg hrf,
                htr, hcf] at hok
            · simp only [processFile, createVideoFile, extractAudio, readFileFs, requestSubtitle,
                writeFileFs, if_neg hct, if_neg hcp, hex, lookupFs_writeFs_self, if_neg hrf, htr,
                if_neg hcf]
              exact mem_keys_removeFs
                (mem_keys_removeFs (mem_keys_writeFs_self _ _ _) hka) hkv

theorem processFile_calls (s : Subtitler) (fs : FS) (inp : Input)
    (c : TranscribeAudioInput) (hc : c ∈ (processFile s fs inp).calls) :
    c.name = inp.fileName ∧ c.language = WLang.portuguese ∧ c.format = WFormat.srt ∧
      ∃ ap, s.extract (freshTempName fs s.tmpDir inp.fileName) s.sampleRate
          = Except.ok (ap, c.data) := by
  by_cases hct : ('/' ∈ inp.fileName ∨ s.createTempFail inp.fileName = true)
  · simp [processFile, createVideoFile, hct] at hc
  · by_cases hcp : s.copyFail inp.fileName = true
    · simp [processFile, createVideoFile, if_neg hct, hcp] at hc
    · rcases hex : s.extract (freshTempName fs s.tmpDir inp.fileName) s.sampleRate with
        e | ⟨ap, ad⟩
      · simp [processFile, createVideoFile, extractAudio, if_neg hct, if_neg hcp, hex] at hc
      · by_cases hrf : s.readFail ap = true
        · simp [processFile, createVideoFile, extractAudio, readFileFs, if_neg hct,
            if_neg hcp, hex, lookupFs_writeFs_self, hrf] at hc
        · rcases htr : s.transcribe
              ⟨inp.fileName, WLang.portuguese, WFormat.srt, ad⟩ with e | subData
          · simp [processFile, createVideoFile, extractAudio, readFileFs, requestSubtitle,
              if_neg hct, if_neg hcp, hex, lookupFs_writeFs_self, if_neg hrf, htr] at hc
            subst hc
            exact ⟨rfl, rfl, rfl, ap, by simpa using hex⟩
          · by_cases hcf : s.createFail (subtitlePath s.outputDir inp.fileName) = true
            · simp [processFile, createVideoFile, extractAudio, readFileFs, requestSubtitle,
                writeFileFs, if_neg hct, if_neg hcp, hex, lookupFs_writeFs_self, if_neg hrf,
                htr, hcf] at hc
              subst hc
              exact ⟨rfl, rfl, rfl, ap, by simpa using hex⟩
            · simp [processFile, createVideoFile, extractAudio, readFileFs, requestSubtitle,
                writeFileFs, if_neg hct, if_neg hcp, hex, lookupFs_writeFs_self, if_neg hrf,
                htr, if_neg hcf] at hc
              subst hc
              exact ⟨rfl, rfl, rfl, ap, by simpa using hex⟩

theorem runPipelines_errs (s : Subtitler) (fs : FS) (inputs : List Input) :
    (runPipelines s fs inputs).2.1 = (runPipelines s fs inputs).2.2.filterMap id := by
  induction inputs generalizing fs with
  | nil => simp [runPipelines]
  | cons inp rest ih =>
    simp only [runPipelines, ih, List.filterMap_cons]
    cases (processFile s fs inp).err <;> simp [Option.toList]

theorem runPipelines_preserves (s : Subtitler) (inputs : List Input) (fs : FS) (k : Str)
    (hext : ∀ vp ap d, s.extract vp s.sampleRate = Except.ok (ap, d) →
      (s.tmpDir ++ ['/']) <+: ap)
    (hk : ¬ (s.tmpDir ++ ['/']) <+: k) (hmem : k ∈ keys fs) :
    k ∈ keys (runPipelines s fs inputs).1 := by
  induction inputs generalizing fs with
  | nil => simpa [runPipelines] using hmem
  | cons inp rest ih =>
    simp only [runPipelines]
    exact ih _ (processFile_preserves s fs inp k hext hk hmem)

theorem runPipelines_success_writes (s : Subtitler) (inputs : List Input) (fs : FS)
    (hext : ∀ vp ap d, s.extract vp s.sampleRate = Except.ok (ap, d) →
      (s.tmpDir ++ ['/']) <+: ap)
    (hout : ∀ inp ∈ inputs, ¬ (s.tmpDir ++ ['/']) <+: subtitlePath s.outputDir inp.fileName)
    (hok : (runPipelines s fs inputs).2.1 = []) :
    ∀ inp ∈ inputs, subtitlePath s.outputDir inp.fileName ∈ keys (runPipelines s fs inputs).1 := by
  induction inputs generalizing fs with
  | nil => intro inp h; cases h
  | cons first rest ih =>
    have hsplit : (processFile s fs first).err.toList ++ (runPipelines s (processFile s fs first).fs rest).2.1 = [] := by
      simpa [runPipelines] using hok
    have herr : (processFile s fs first).err = none := by
      cases h : (processFile s fs first).err <;> simp [h, Option.toList] at hsplit ⊢
    have hrest : (runPipelines s (processFile s fs first).fs rest).2.1 = [] := by
      simpa [herr, Option.toList] using hsplit
    intro inp hmem
    rcases List.mem_cons.1 hmem with rfl | hmem2
    · simp only [runPipelines]
      exact runPipelines_preserves s rest _ _ hext (hout inp (List.mem_cons_self _ _))
        (processFile_success_writes s fs inp hext (hout inp (List.mem_cons_self _ _)) herr)
    · simp only [runPipelines]
      exact ih _ (fun i hi => hout i (List.mem_cons_of_mem _ hi)) hrest inp hmem2

/-- The last element of a list is an element of it. -/
theorem mem_of_getLast?_eq {α : Type} {l : List α} {x : α} (h : l.getLast? = some x) :
    x ∈ l := by
  rcases List.mem_getLast?_eq_getLast (Option.mem_def.2 h) with ⟨hne, rfl⟩
  exact List.getLast_mem hne

/-- Function `getLast?` is `some` exactly on nonempty lists. -/
theorem getLast?_isSome_iff {α : Type} (l : List α) :
    l.getLast?.isSome = true ↔ l ≠ [] := by
  cases l with
  | nil => simp
  | cons a t =>
    rw [List.getLast?_eq_getLast_of_ne_nil (List.cons_ne_nil a t)]
    simp

/-- C2 helper: the aggregated error is `some` exactly when some job failed. -/
theorem generate_err_isSome (s : Subtitler) (fs : FS) (inputs : List Input) :
    (generateFromAudioData s fs inputs).err.isSome = true ↔
      ∃ e ∈ (generateFromAudioData s fs inputs).perJob, e.isSome = true := by
  have hg1 : (generateFromAudioData s fs inputs).err = (runPipelines s fs inputs).2.1.getLast? := rfl
  have hg2 : (generateFromAudioData s fs inputs).perJob = (runPipelines s fs inputs).2.2 := rfl
  rw [hg1, hg2, runPipelines_errs]
  rw [getLast?_isSome_iff]
  constructor
  · intro h
    rcases List.exists_mem_of_ne_nil _ h with ⟨e, he⟩
    rcases List.mem_filterMap.1 he with ⟨o, ho, hoe⟩
    refine ⟨o, ho, ?_⟩
    simp only [id] at hoe
    simp [hoe]
  · rintro ⟨o, ho, hsome⟩ hnil
    rcases Option.isSome_iff_exists.1 hsome with ⟨e, rfl⟩
    have : e ∈ (runPipelines s fs inputs).2.2.filterMap id :=
      List.mem_filterMap.2 ⟨some e, ho, rfl⟩
    simp [hnil] at this


/-! ### Concrete environments used by witnesses and counterexamples -/

/-- A concrete environment in which every OS call succeeds, the extractor
yields `tmp/out.wav`, and transcription yields fixed subtitle bytes. -/
def sOK : Subtitler :=
  { sampleRate := "3800".data
    outputDir := "subtitles".data
    tmpDir := "tmp".data
    createTempFail := fun _ => false
    copyFail := fun _ => false
    readFail := fun _ => false
    createFail := fun _ => false
    extract := fun _ _ => .ok ("tmp/out.wav".data, "WAV".data)
    transcribe := fun _ => .ok "sub!".data }

/-- The same environment with `io.Copy` of the upload stream failing, as
when a client aborts mid-upload. -/
def sCopyFail : Subtitler :=
  { sOK with copyFail := fun _ => true }

/-! ### Claim theorems -/

/-- C1: the claim states that every temporary video and audio file created
during a pipeline run is removed before the run ends regardless of which
stage fails.  The code violates this: when `io.Copy` into the fresh temp
video file fails, `createVideoFile` returns before the caller registers
the deferred `removeFile`, and the created temp file stays on disk.  This
theorem evaluates the pipeline at such an input: the run fails, it created
exactly the temp video file `tmp/a.mp40`, and that file is still present
in the final filesystem. -/
theorem claim_C1_copyFail_leaks_temp :
    (processFile sCopyFail [] ⟨"a.mp4".data, "vid".data, "pt".data⟩).err.isSome = true
      ∧ (processFile sCopyFail [] ⟨"a.mp4".data, "vid".data, "pt".data⟩).created
          = ["tmp/a.mp40".data]
      ∧ "tmp/a.mp40".data
          ∈ keys (processFile sCopyFail [] ⟨"a.mp4".data, "vid".data, "pt".data⟩).fs := by
  decide

/-- C2: `GenerateFromAudioData` reports an error exactly when at least one
per-job pipeline failed at some stage, and when it reports none, every
job's subtitle file is present in the filesystem at its computed output
path.  Hypotheses, from the spec's collaborator contract: the extractor
places audio files under the temp directory (spec section 4.1 stage 2),
and no job's subtitle output path lies under the temp directory (the temp
and output directories are distinct). -/
theorem claim_C2_generate_err_iff_and_writes (s : Subtitler) (fs : FS) (inputs : List Input)
    (hext : ∀ vp ap d, s.extract vp s.sampleRate = Except.ok (ap, d) →
      (s.tmpDir ++ ['/']) <+: ap)
    (hout : ∀ inp ∈ inputs, ¬ (s.tmpDir ++ ['/']) <+: subtitlePath s.outputDir inp.fileName) :
    ((generateFromAudioData s fs inputs).err.isSome = true ↔
        ∃ e ∈ (generateFromAudioData s fs inputs).perJob, e.isSome = true)
      ∧ ((generateFromAudioData s fs inputs).err = none →
          ∀ inp ∈ inputs, subtitlePath s.outputDir inp.fileName
            ∈ keys (generateFromAudioData s fs inputs).fs) := by
  refine ⟨generate_err_isSome s fs inputs, ?_⟩
  intro hnone inp hmem
  have herrs : (runPipelines s fs inputs).2.1 = [] := by
    have h : (runPipelines s fs inputs).2.1.getLast? = none := hnone
    exact List.getLast?_eq_none_iff.1 h
  exact runPipelines_success_writes s inputs fs hext hout herrs inp hmem

set_option maxHeartbeats 1600000 in
/-- Witness for C2, at one concrete successful upload. -/
theorem claim_C2_witness :
    (generateFromAudioData sOK [] [⟨"a.mp4".data, "vid".data, "pt".data⟩]).err = none
      ∧ subtitlePath "subtitles".data "a.mp4".data
          ∈ keys (generateFromAudioData sOK [] [⟨"a.mp4".data, "vid".data, "pt".data⟩]).fs := by
  have hext : ∀ vp ap d, sOK.extract vp sOK.sampleRate = Except.ok (ap, d) →
      (sOK.tmpDir ++ ['/']) <+: ap := by
    intro vp ap d hx
    simp only [sOK] at hx
    simp only [Except.ok.injEq, Prod.mk.injEq] at hx
    obtain ⟨rfl, rfl⟩ := hx
    decide
  have hout : ∀ inp ∈ [(⟨"a.mp4".data, "vid".data, "pt".data⟩ : Input)],
      ¬ (sOK.tmpDir ++ ['/']) <+: subtitlePath sOK.outputDir inp.fileName := by
    intro inp hmem
    have he := List.mem_singleton.1 hmem
    subst he
    decide
  have h := (claim_C2_generate_err_iff_and_writes sOK []
      [⟨"a.mp4".data, "vid".data, "pt".data⟩] hext hout).2
  exact ⟨by decide, h (by decide) ⟨"a.mp4".data, "vid".data, "pt".data⟩ (by decide)⟩

/-- C6: every transcription call a pipeline run makes passes the job's
original filename, the hardcoded Portuguese language constant and the SRT
format constant — independent of the job's per-job `Language` field — and
the audio bytes produced by the extractor for this run's temp video file. -/
theorem claim_C6_transcribe_call_shape (s : Subtitler) (fs : FS) (inp : Input)
    (c : TranscribeAudioInput) (hc : c ∈ (processFile s fs inp).calls) :
    c.name = inp.fileName ∧ c.language = WLang.portuguese ∧ c.format = WFormat.srt ∧
      ∃ ap, s.extract (freshTempName fs s.tmpDir inp.fileName) s.sampleRate
          = Except.ok (ap, c.data) := by
  exact processFile_calls s fs inp c hc

/-- Witness for C6, at a concrete run whose job carries a non-Portuguese
per-job language field. -/
theorem claim_C6_witness :
    (⟨"a.mp4".data, WLang.portuguese, WFormat.srt, "WAV".data⟩ : TranscribeAudioInput)
        ∈ (processFile sOK [] ⟨"a.mp4".data, "vid".data, "en".data⟩).calls
      ∧ ((⟨"a.mp4".data, WLang.portuguese, WFormat.srt, "WAV".data⟩ :
            TranscribeAudioInput).name = "a.mp4".data
          ∧ (⟨"a.mp4".data, WLang.portuguese, WFormat.srt, "WAV".data⟩ :
              TranscribeAudioInput).language = WLang.portuguese
          ∧ (⟨"a.mp4".data, WLang.portuguese, WFormat.srt, "WAV".data⟩ :
              TranscribeAudioInput).format = WFormat.srt
          ∧ ∃ ap, sOK.extract (freshTempName [] sOK.tmpDir "a.mp4".data) sOK.sampleRate
              = Except.ok (ap,
                  (⟨"a.mp4".data, WLang.portuguese, WFormat.srt, "WAV".data⟩ :
                    TranscribeAudioInput).data)) :=
  ⟨by decide,
    claim_C6_transcribe_call_shape sOK [] ⟨"a.mp4".data, "vid".data, "en".data⟩
      ⟨"a.mp4".data, WLang.portuguese, WFormat.srt, "WAV".data⟩ (by decide)⟩

/-! ### C3: the subtitle output path -/

theorem pathExtGo_append (l : List Char) (rest acc : List Char)
    (hl : ∀ c ∈ l, c ≠ '.' ∧ c ≠ '/') :
    pathExtGo (l ++ '.' :: rest) acc = '.' :: (l.reverse ++ acc) := by
  induction l generalizing acc with
  | nil => simp [pathExtGo]
  | cons c t ih =>
    have hc := hl c (List.mem_cons_self c t)
    simp only [List.cons_append, pathExtGo, if_neg hc.2, if_neg hc.1, List.append_eq]
    rw [ih _ (fun x hx => hl x (List.mem_cons_of_mem _ hx))]
    simp

/-- Value of `path.Ext` on `stem.e` is `.e` when `e` contains no dot or slash. -/
theorem pathExt_stem_ext (stem e : Str) (he1 : '.' ∉ e) (he2 : '/' ∉ e) :
    pathExt (stem ++ '.' :: e) = '.' :: e := by
  unfold pathExt
  have h1 : (stem ++ '.' :: e).reverse = e.reverse ++ '.' :: stem.reverse := by
    simp
  rw [h1, pathExtGo_append]
  · simp
  · intro c hc
    have hce : c ∈ e := List.mem_reverse.1 hc
    exact ⟨fun h => he1 (h ▸ hce), fun h => he2 (h ▸ hce)⟩

/-- Call `strings.Replace(stem.e, .e, new, 1)` replaces the final occurrence when
the stem contains no dot: the first occurrence of `.e` starts at the dot. -/
theorem replaceFirst_stem (stem e new : Str) (hs : '.' ∉ stem) :
    replaceFirst (stem ++ '.' :: e) ('.' :: e) new = stem ++ new := by
  unfold replaceFirst
  rw [if_neg (by simp)]
  induction stem with
  | nil =>
    simp only [List.nil_append, replaceFirst.goRep]
    rw [if_pos (List.isPrefixOf_iff_prefix.2 (List.prefix_refl _))]
    simp [List.drop_length]
  | cons c t ih =>
    have hc : c ≠ '.' := fun h => hs (h ▸ List.mem_cons_self c t)
    have hnp : ¬ (('.' :: e).isPrefixOf (c :: (t ++ '.' :: e)) = true) := by
      intro h
      have hp := List.isPrefixOf_iff_prefix.1 h
      exact hc (List.cons_prefix_cons.1 hp).1.symm
    simp only [List.cons_append, replaceFirst.goRep, List.append_eq]
    rw [if_neg hnp, ih (fun h => hs (List.mem_cons_of_mem _ h))]

/-- Value of `filepath.Base` on a nonempty separator-free path is the path itself. -/
theorem baseName_no_slash (p : Str) (hne : p ≠ []) (hns : '/' ∉ p) : baseName p = p := by
  unfold baseName
  rw [if_neg hne]
  have hd : p.reverse.dropWhile (fun x => decide (x = '/')) = p.reverse := by
    rw [List.dropWhile_eq_self_iff]
    intro hl h
    have hmem := List.get_mem p.reverse 0 hl
    simp only [decide_eq_true_eq] at h
    exact hns (List.mem_reverse.1 (h ▸ hmem))
  simp only [hd]
  rw [if_neg (by simpa using hne)]
  have ht : p.reverse.takeWhile (fun x => decide (x ≠ '/')) = p.reverse := by
    rw [List.takeWhile_eq_self_iff]
    intro x hx
    simp only [decide_eq_true_eq]
    intro h
    exact hns (h ▸ List.mem_reverse.1 hx)
  rw [ht, List.reverse_reverse]

/-- The spec's formula on a separator-free name `stem.e`, dot-free stem. -/
theorem subtitlePathSpec_stem_ext (dir stem e : Str) (hs2 : '/' ∉ stem)
    (he1 : '.' ∉ e) (he2 : '/' ∉ e) :
    subtitlePathSpec dir (stem ++ '.' :: e) = pathJoin dir (stem ++ srtExt) := by
  unfold subtitlePathSpec
  have hnos : '/' ∉ stem ++ '.' :: e := by
    intro h
    rcases List.mem_append.1 h with h1 | h1
    · exact hs2 h1
    · rcases List.mem_cons.1 h1 with h2 | h2
      · cases h2
      · exact he2 h2
  have hb : baseName (stem ++ '.' :: e) = stem ++ '.' :: e :=
    baseName_no_slash _ (by simp) hnos
  simp only [hb, pathExt_stem_ext stem e he1 he2]
  have hlen : (stem ++ '.' :: e).length - ('.' :: e).length = stem.length := by
    simp
  rw [hlen, List.take_left]

/-- The code's formula on the same names. -/
theorem subtitlePath_stem_ext (dir stem e : Str) (hs1 : '.' ∉ stem)
    (he1 : '.' ∉ e) (he2 : '/' ∉ e) :
    subtitlePath dir (stem ++ '.' :: e) = pathJoin dir (stem ++ srtExt) := by
  unfold subtitlePath
  rw [pathExt_stem_ext stem e he1 he2, replaceFirst_stem stem e srtExt hs1]

/-- C3 counterexample: the persist path the code computes differs from the
spec's join-output-directory-with-base-name-extension-replaced formula on
(i) a name with no extension (the code inserts `.srt` at the front),
(ii) a name whose extension text occurs twice (the code replaces the first
occurrence), and (iii) a name containing a separator (the code keeps the
directory components instead of taking the base name). -/
theorem claim_C3_counterexample :
    subtitlePath "out".data "noext".data ≠ subtitlePathSpec "out".data "noext".data
      ∧ subtitlePath "out".data "a.mp4.mp4".data ≠ subtitlePathSpec "out".data "a.mp4.mp4".data
      ∧ subtitlePath "out".data "d/b.mp4".data ≠ subtitlePathSpec "out".data "d/b.mp4".data := by
  refine ⟨by decide, by decide, by decide⟩

/-- C3 (amended): for job filenames of the form `stem.ext` — nonempty-or-empty
extension text free of dots and separators, stem free of dots (so the
extension text occurs exactly once) and of separators — the Persist path the
code computes coincides with the spec's formula: the output directory joined
with the base name, extension replaced by `.srt`.  For other names the code
instead replaces the first occurrence of the `path.Ext` text inside the
full, un-based name (inserting `.srt` at the front when there is no
extension), as the counterexample shows. -/
theorem claim_C3_subtitlePath_agrees_on_simple_names (dir stem e : Str)
    (hs1 : '.' ∉ stem) (hs2 : '/' ∉ stem) (he1 : '.' ∉ e) (he2 : '/' ∉ e) :
    subtitlePath dir (stem ++ '.' :: e) = subtitlePathSpec dir (stem ++ '.' :: e) := by
  rw [subtitlePath_stem_ext dir stem e hs1 he1 he2,
    subtitlePathSpec_stem_ext dir stem e hs2 he1 he2]

/-- Witness for the amended C3, at a concrete simple filename. -/
theorem claim_C3_witness :
    ('.' ∉ "a".data ∧ '/' ∉ "a".data ∧ '.' ∉ "mp4".data ∧ '/' ∉ "mp4".data)
      ∧ subtitlePath "subtitles".data ("a".data ++ '.' :: "mp4".data)
          = subtitlePathSpec "subtitles".data ("a".data ++ '.' :: "mp4".data) :=
  ⟨by decide,
    claim_C3_subtitlePath_agrees_on_simple_names "subtitles".data "a".data "mp4".data
      (by decide) (by decide) (by decide) (by decide)⟩

/-! ### Directory-walk lemmas -/

theorem mem_walkFiles (fs : FS) (dir p : Str) :
    p ∈ walkFiles fs dir ↔ p ∈ keys fs ∧ isUnder dir p = true := by
  unfold walkFiles
  rw [List.mem_insertionSort, List.mem_filter]

theorem walkFiles_perm {fs1 fs2 : FS} (h : fs1.Perm fs2) (dir : Str) :
    walkFiles fs1 dir = walkFiles fs2 dir := by
  unfold walkFiles
  have hp : ((keys fs1).filter (fun p => isUnder dir p)).Perm
      ((keys fs2).filter (fun p => isUnder dir p)) := (h.map Prod.fst).filter _
  exact List.eq_of_perm_of_sorted
    (((List.perm_insertionSort _ _).trans hp).trans (List.perm_insertionSort _ _).symm)
    (List.sorted_insertionSort _ _) (List.sorted_insertionSort _ _)

theorem mem_listSubtitles_iff (fs : FS) (x : Str) :
    x ∈ listSubtitles fs ↔
      ∃ p, p ∈ keys fs ∧ isUnder subtitlesDirW p = true
        ∧ pathExt p = srtExt ∧ baseName p = x := by
  unfold listSubtitles
  simp only [List.mem_map, List.mem_filter, mem_walkFiles, decide_eq_true_eq]
  constructor
  · rintro ⟨p, ⟨⟨hk, hu⟩, he⟩, rfl⟩
    exact ⟨p, hk, hu, he, rfl⟩
  · rintro ⟨p, hk, hu, he, rfl⟩
    exact ⟨p, ⟨⟨hk, hu⟩, he⟩, rfl⟩

/-! ### Claim C4: what the List endpoint returns -/

/-- C4 counterexample: with one file in a subdirectory of the output
directory, the endpoint lists it, while the claim's non-recursive scan
(`listSubtitlesSpec`, entries located directly in the output directory)
returns nothing. -/
theorem claim_C4_counterexample :
    listSubtitles [("subtitles/sub/a.srt".data, "x".data)]
      ≠ listSubtitlesSpec [("subtitles/sub/a.srt".data, "x".data)] := by
  decide

/-- C4 (amended): the List endpoint returns exactly the base names of the
files anywhere under the output directory tree — the walk is recursive, so
entries of subdirectories are included — whose extension is `.srt`. -/
theorem claim_C4_list_members (fs : FS) (x : Str) :
    x ∈ listSubtitles fs ↔
      ∃ p, p ∈ keys fs ∧ isUnder subtitlesDirW p = true
        ∧ pathExt p = srtExt ∧ baseName p = x :=
  mem_listSubtitles_iff fs x

/-! ### Claim C7: fetch of an absent name -/

theorem foldl_if_none {α : Type} (l : List Str) (name : Str) (f : Str → α) (a : α)
    (h : ∀ p ∈ l, baseName p ≠ name) :
    l.foldl (fun acc p => if baseName p = name then f p else acc) a = a := by
  induction l generalizing a with
  | nil => rfl
  | cons p t ih =>
    simp only [List.foldl_cons, if_neg (h p (List.mem_cons_self p t))]
    exact ih _ (fun q hq => h q (List.mem_cons_of_mem _ hq))

/-- C7: when no file under the output directory has the requested base
name, the fetch handler completes with status 200, an empty body, and no
subtitle headers (and hence no 404). -/
theorem claim_C7_fetch_absent_name (fs : FS) (name : Str)
    (h : ∀ p ∈ keys fs, isUnder subtitlesDirW p = true → baseName p ≠ name) :
    subtitleFileH fs name = emptyOk := by
  unfold subtitleFileH
  exact foldl_if_none _ name _ emptyOk
    (fun p hp => h p ((mem_walkFiles fs subtitlesDirW p).1 hp).1
      ((mem_walkFiles fs subtitlesDirW p).1 hp).2)

/-- Witness for C7 at a concrete store and absent name. -/
theorem claim_C7_witness :
    (∀ p ∈ keys [("subtitles/a.srt".data, "x".data)],
        isUnder subtitlesDirW p = true → baseName p ≠ "b.srt".data)
      ∧ subtitleFileH [("subtitles/a.srt".data, "x".data)] "b.srt".data = emptyOk :=
  ⟨by decide, claim_C7_fetch_absent_name [("subtitles/a.srt".data, "x".data)]
    "b.srt".data (by decide)⟩

/-! ### Claim C8: delete-by-name -/

theorem foldl_remove_filter (ps : List Str) (fs : FS) (name : Str) :
    ps.foldl (fun acc p => if baseName p = name then removeFs acc p else acc) fs
      = fs.filter (fun kv => decide (¬ (kv.1 ∈ ps ∧ baseName kv.1 = name))) := by
  induction ps generalizing fs with
  | nil => simp
  | cons p t ih =>
    by_cases hb : baseName p = name
    · simp only [List.foldl_cons, if_pos hb]
      rw [ih (removeFs fs p)]
      unfold removeFs
      rw [List.filter_filter]
      apply List.filter_congr
      intro kv _
      by_cases h1 : kv.1 = p
      · subst h1
        simp [hb]
      · simp [h1, List.mem_cons]
    · simp only [List.foldl_cons, if_neg hb]
      rw [ih fs]
      apply List.filter_congr
      intro kv _
      by_cases h1 : kv.1 = p
      · subst h1
        simp [hb, List.mem_cons]
      · simp [h1, List.mem_cons]

/-- C8: the delete handler removes exactly the files under the output
directory whose base name equals the requested name, leaves every other
file unchanged, replies with an empty 200, after which the name no longer
appears in List results; and when nothing matches, the store is unchanged. -/
theorem claim_C8_delete_spec (fs : FS) (name : Str) :
    (deleteSubtitleH fs name).1
        = fs.filter (fun kv =>
            decide (¬ (isUnder subtitlesDirW kv.1 = true ∧ baseName kv.1 = name)))
      ∧ (deleteSubtitleH fs name).2 = emptyOk
      ∧ name ∉ listSubtitles (deleteSubtitleH fs name).1
      ∧ ((∀ kv ∈ fs, ¬ (isUnder subtitlesDirW kv.1 = true ∧ baseName kv.1 = name)) →
          (deleteSubtitleH fs name).1 = fs) := by
  have hfs : (deleteSubtitleH fs name).1
      = fs.filter (fun kv =>
          decide (¬ (isUnder subtitlesDirW kv.1 = true ∧ baseName kv.1 = name))) := by
    show (walkFiles fs subtitlesDirW).foldl
        (fun acc p => if baseName p = name then removeFs acc p else acc) fs = _
    rw [foldl_remove_filter]
    apply List.filter_congr
    intro kv hkv
    have hk : kv.1 ∈ keys fs := List.mem_map.2 ⟨kv, hkv, rfl⟩
    by_cases hu : isUnder subtitlesDirW kv.1 = true
    · simp [mem_walkFiles, hk, hu]
    · simp [mem_walkFiles, hk, hu]
  refine ⟨hfs, rfl, ?_, ?_⟩
  · intro hmem
    rcases (mem_listSubtitles_iff _ _).1 hmem with ⟨p, hk, hu, _, hb⟩
    rw [hfs] at hk
    unfold keys at hk
    rcases List.mem_map.1 hk with ⟨kv, hkv, rfl⟩
    have := (List.mem_filter.1 hkv).2
    simp only [decide_eq_true_eq] at this
    exact this ⟨hu, hb⟩
  · intro hnone
    rw [hfs]
    rw [List.filter_eq_self]
    intro kv hkv
    simp only [decide_eq_true_eq]
    exact hnone kv hkv

/-- Witness for C8 (its final conjunct carries a hypothesis), at a
concrete store and a name that matches nothing. -/
theorem claim_C8_witness :
    (∀ kv ∈ [("subtitles/a.srt".data, "x".data)],
        ¬ (isUnder subtitlesDirW kv.1 = true ∧ baseName kv.1 = "zzz.srt".data))
      ∧ (deleteSubtitleH [("subtitles/a.srt".data, "x".data)] "zzz.srt".data).1
          = [("subtitles/a.srt".data, "x".data)] :=
  ⟨by decide,
    (claim_C8_delete_spec [("subtitles/a.srt".data, "x".data)] "zzz.srt".data).2.2.2
      (by decide)⟩

/-! ### Claim C10: deterministic listing -/

/-- C10: the List response is a deterministic function of the set of files
on disk: any two enumeration orders of the same files (the filesystem
association lists are permutations of each other) produce the same list in
the same order, because the walk visits each directory's entries sorted by
name (`os.ReadDir` sorts). -/
theorem claim_C10_list_deterministic (fs1 fs2 : FS) (h : fs1.Perm fs2) :
    listSubtitles fs1 = listSubtitles fs2 := by
  unfold listSubtitles
  rw [walkFiles_perm h]

/-- Witness for C10 at two concrete enumeration orders of one store. -/
theorem claim_C10_witness :
    ([("subtitles/a.srt".data, "x".data), ("subtitles/b.srt".data, "y".data)].Perm
        [("subtitles/b.srt".data, "y".data), ("subtitles/a.srt".data, "x".data)])
      ∧ listSubtitles [("subtitles/a.srt".data, "x".data), ("subtitles/b.srt".data, "y".data)]
          = listSubtitles
              [("subtitles/b.srt".data, "y".data), ("subtitles/a.srt".data, "x".data)] :=
  ⟨List.Perm.swap _ _ _,
    claim_C10_list_deterministic _ _ (List.Perm.swap _ _ _)⟩

/-! ### Claim C9: the zip archive -/

/-- With no duplicate paths, association-list lookup recovers each entry. -/
theorem lookupFs_of_nodup {fs : FS} {kv : Str × Data} (hkv : kv ∈ fs)
    (hnd : (keys fs).Nodup) : lookupFs fs kv.1 = some kv.2 := by
  induction fs with
  | nil => cases hkv
  | cons hd tl ih =>
    have hnd2 := hnd
    unfold keys at hnd2
    rw [List.map_cons, List.nodup_cons] at hnd2
    rcases List.mem_cons.1 hkv with rfl | hmem
    · simp [lookupFs]
    · have hne : hd.1 ≠ kv.1 := by
        intro h
        exact hnd2.1 (h ▸ List.mem_map.2 ⟨kv, hmem, rfl⟩)
      simp only [lookupFs, if_neg hne]
      exact ih hmem hnd2.2

/-- C9: the archive holds exactly one entry per `.srt` file under the
output directory, in some order, each named by the file's base name with
contents equal to the file's contents byte for byte, and is served with
the zip content type and the fixed download name `legendas.zip`.
The hypothesis — no two store entries share a path — is an invariant of
any real directory tree. -/
theorem claim_C9_zip_archive (fs : FS) (hnd : (keys fs).Nodup) :
    (subtitlesZipH fs).entries.Perm
        ((fs.filter (fun kv =>
            decide (pathExt kv.1 = srtExt) && isUnder subtitlesDirW kv.1)).map
          (fun kv => (baseName kv.1, kv.2)))
      ∧ (subtitlesZipH fs).contentType = "application/zip".data
      ∧ (subtitlesZipH fs).disposition = "attachment; filename=legendas.zip".data := by
  refine ⟨?_, rfl, rfl⟩
  have h1 : ((walkFiles fs subtitlesDirW).filter
        (fun p => decide (pathExt p = srtExt))).Perm
      ((keys fs).filter
        (fun p => decide (pathExt p = srtExt) && isUnder subtitlesDirW p)) := by
    have hp : (walkFiles fs subtitlesDirW).Perm
        ((keys fs).filter (fun p => isUnder subtitlesDirW p)) :=
      List.perm_insertionSort _ _
    have hflt := hp.filter (fun p => decide (pathExt p = srtExt))
    rwa [List.filter_filter] at hflt
  have h2 := h1.map (fun p => (baseName p, (lookupFs fs p).getD []))
  have h3 : ((keys fs).filter
        (fun p => decide (pathExt p = srtExt) && isUnder subtitlesDirW p)).map
        (fun p => (baseName p, (lookupFs fs p).getD []))
      = (fs.filter (fun kv =>
          decide (pathExt kv.1 = srtExt) && isUnder subtitlesDirW kv.1)).map
          (fun kv => (baseName kv.1, kv.2)) := by
    unfold keys
    rw [List.filter_map, List.map_map]
    apply List.map_congr_left
    intro kv hkv
    have hmem : kv ∈ fs := List.mem_of_mem_filter hkv
    simp only [Function.comp]
    rw [lookupFs_of_nodup hmem hnd]
    rfl
  rw [h3] at h2
  exact h2

/-- Witness for C9 at a concrete two-file store. -/
theorem claim_C9_witness :
    (keys [("subtitles/a.srt".data, "x".data), ("subtitles/b.srt".data, "y".data)]).Nodup
      ∧ ((subtitlesZipH
            [("subtitles/a.srt".data, "x".data),
              ("subtitles/b.srt".data, "y".data)]).entries.Perm
          (([("subtitles/a.srt".data, "x".data),
              ("subtitles/b.srt".data, "y".data)].filter (fun kv =>
              decide (pathExt kv.1 = srtExt) && isUnder subtitlesDirW kv.1)).map
            (fun kv => (baseName kv.1, kv.2)))
        ∧ (subtitlesZipH
            [("subtitles/a.srt".data, "x".data),
              ("subtitles/b.srt".data, "y".data)]).contentType = "application/zip".data
        ∧ (subtitlesZipH
            [("subtitles/a.srt".data, "x".data),
              ("subtitles/b.srt".data, "y".data)]).disposition
            = "attachment; filename=legendas.zip".data) :=
  ⟨by decide,
    claim_C9_zip_archive
      [("subtitles/a.srt".data, "x".data), ("subtitles/b.srt".data, "y".data)]
      (by decide)⟩

/-! ### Claim C5: the upload size cap -/

/-- C5: the claim states that requests whose body exceeds 1 GiB are
rejected before the Orchestrator is invoked.  The code passes
`maxFileSize` to `ParseMultipartForm` as its `maxMemory` argument, which
never bounds the request body — file parts beyond it spill to disk temp
files — so a well-formed upload of `2^30 + 1` bytes is parsed and the
Orchestrator runs (here to completion, replying 200).  This theorem
evaluates the handler at such a request. -/
theorem claim_C5_large_body_not_rejected :
    bodySize ⟨[("file".data, [⟨"a.mp4".data, List.replicate (2 ^ 30 + 1) 'x'⟩])], false⟩
        > maxFileSize
      ∧ (createSubtitlesH sOK []
            ⟨[("file".data, [⟨"a.mp4".data, List.replicate (2 ^ 30 + 1) 'x'⟩])],
              false⟩).calledOrch = true
      ∧ (createSubtitlesH sOK []
            ⟨[("file".data, [⟨"a.mp4".data, List.replicate (2 ^ 30 + 1) 'x'⟩])],
              false⟩).status = 200 := by
  refine ⟨?_, ?_, ?_⟩
  · unfold bodySize maxFileSize
    simp only [List.map_cons, List.map_nil, List.sum_cons, List.sum_nil,
      List.length_replicate]
    norm_num
  · rfl
  · rfl
